import Mathlib

/-
Verification development for the crypto sentiment analysis repository.

The Python sources are shallowly embedded as pure Lean functions:

* timestamps are modelled as `Int` seconds (the code only compares and
  subtracts datetimes, so an abstract linear time axis suffices);
* MongoDB collections are modelled as lists of documents; the driver
  operations the code uses (`bulk_write` of upsert-if-absent operations,
  `find_one` existence checks, `insert_one`) are modelled by their
  documented single-document semantics;
* external services (the news search API, the quote API, the FinBERT
  scoring model, the datetime string parser and the sentence tokenizer)
  are parameters of the embedding, since the code treats them as opaque;
* Python dictionaries used as result maps are association lists with
  replace-or-append assignment;
* module attribute access on the config module is modelled by
  `configAttr : Option A -> Except Unit A`, where `Except.error` models
  the AttributeError raised when the module has no such attribute.
-/

namespace CryptoSentiment

/-! ## Result-map dictionaries (Python dict with string keys) -/

/-- Python dict assignment `m[k] = v`: replace the value if the key is
present, otherwise append the new binding at the end (insertion order). -/
def dictInsert {α : Type} (m : List (String × α)) (k : String) (v : α) :
    List (String × α) :=
  if m.any (fun p => p.1 == k) then
    m.map (fun p => if p.1 == k then (k, v) else p)
  else
    m ++ [(k, v)]

/-- Python dict lookup `m.get(k)`: the value of the first (and, with
unique keys, only) binding of `k`. -/
def dictLookup {α : Type} : List (String × α) → String → Option α
  | [], _ => none
  | p :: m, k => if p.1 == k then some p.2 else dictLookup m k

/-- Python `k in m`. -/
def dictContains {α : Type} (m : List (String × α)) (k : String) : Bool :=
  m.any (fun p => p.1 == k)

/-- Module attribute access: `Except.error ()` models the `AttributeError`
raised when the attribute is absent from the module. -/
def configAttr {α : Type} : Option α → Except Unit α
  | some v => Except.ok v
  | none => Except.error ()

/-! ## Data model

Shapes of the records handled by `src/src/database.py` and
`src/src/data_collector.py`. -/

/-- A raw article as returned by the news search API and handed to
`insert_articles`: `source` is the nested `source.name` value (`none`
models a missing `source`/`source.name`), `publishedAt` is the optional
date string. -/
structure RawArticle where
  title : String
  source : Option String := none
  publishedAt : Option String := none
  description : String := ""
deriving DecidableEq, Repr

/-- The sentiment sub-record attached to an article. -/
structure SentimentRecord where
  score : ℚ
  label : String
deriving DecidableEq, Repr

/-- An article document as persisted by `insert_articles`. -/
structure StoredDoc where
  title : String
  sourceName : Option String
  published_at : Int
  stored_at : Int
  description : String
  sentiment : Option SentimentRecord := none
deriving DecidableEq, Repr

/-- A price-data document handed to `insert_price_data` (fields that the
function may default are optional). -/
structure PricePoint where
  symbol : String
  timestamp : Option Int := none
  collection_time : Option Int := none
  price : ℚ := 0
deriving DecidableEq, Repr

/-- A price document as persisted by `insert_price_data`. -/
structure StoredPrice where
  symbol : String
  timestamp : Int
  collection_time : Int
  price : ℚ
deriving DecidableEq, Repr

/-- The warnings `insert_articles` can log. -/
inductive ArticleWarning where
  | noArticles
  | parseFailed
  | publishedLongBefore
deriving DecidableEq, Repr

/-! ## database.py: MongoDBClient.insert_articles -/

/-- Key match used both by the upsert filter of `insert_articles`
(`title` plus `source.name`) and by the dedup statements. -/
def matchesKey (d : StoredDoc) (t : String) (s : Option String) : Bool :=
  d.title == t && d.sourceName == s

/-- Timestamp normalization performed on each article by
`insert_articles` (database.py lines 139-179): `stored_at` is set to the
storing time `now`; a string `publishedAt` is parsed (the two
`fromisoformat` branches and the `strptime` branch are abstracted by the
`parse` parameter, whose `none` models the caught
`ValueError`/`TypeError`), falling back to `stored_at` with a warning on
parse failure, and warning when the parsed publish time lies more than 48
hours (172800 seconds) before the storing time; an absent `publishedAt`
falls back to `stored_at` with no warning. -/
def normalizeArticle (parse : String → Option Int) (now : Int)
    (a : RawArticle) : StoredDoc × List ArticleWarning :=
  match a.publishedAt with
  | some s =>
    match parse s with
    | some t =>
      let warns := if now - t > 172800 then [ArticleWarning.publishedLongBefore] else []
      (⟨a.title, a.source, t, now, a.description, none⟩, warns)
    | none =>
      (⟨a.title, a.source, now, now, a.description, none⟩, [ArticleWarning.parseFailed])
  | none =>
    (⟨a.title, a.source, now, now, a.description, none⟩, [])

/-- One `UpdateOne(filter, setOnInsert, upsert=True)` operation of the
ordered `bulk_write` in `insert_articles`: if some document matches the
(title, source.name) filter the operation is a no-op, otherwise the
normalized article is inserted and the upserted count grows. -/
def upsertStep (acc : List StoredDoc × Nat) (d : StoredDoc) :
    List StoredDoc × Nat :=
  if acc.1.any (fun e => matchesKey e d.title d.sourceName) then acc
  else (acc.1 ++ [d], acc.2 + 1)

/-- `MongoDBClient.insert_articles` (database.py lines 123-212): returns
the updated collection, the `upserted_count` reported by the bulk write,
and the warnings logged. -/
def insert_articles (parse : String → Option Int) (now : Int)
    (coll : List StoredDoc) (articles : List RawArticle) :
    List StoredDoc × Nat × List ArticleWarning :=
  if articles.isEmpty then (coll, 0, [ArticleWarning.noArticles])
  else
    let normed := articles.map (normalizeArticle parse now)
    let warns := (normed.map Prod.snd).flatten
    let folded := (normed.map Prod.fst).foldl upsertStep (coll, 0)
    (folded.1, folded.2, warns)

/-- Number of persisted article documents with the given
(title, source name) key. -/
def countKey (coll : List StoredDoc) (t : String) (s : Option String) : Nat :=
  (coll.filter (fun d => matchesKey d t s)).length

/-! ## database.py: MongoDBClient.insert_price_data -/

/-- `MongoDBClient.insert_price_data` (database.py lines 214-262): `none`
input models the falsy `price_data` early return; a missing timestamp or
collection time defaults to `now`; an existing document with the same
(symbol, timestamp) makes the call a successful no-op, otherwise the
point is inserted. -/
def insert_price_data (coll : List StoredPrice) (price_data : Option PricePoint)
    (now : Int) : List StoredPrice × Bool :=
  match price_data with
  | none => (coll, false)
  | some p =>
    let ts := p.timestamp.getD now
    let ct := p.collection_time.getD now
    if coll.any (fun d => d.symbol == p.symbol && d.timestamp == ts) then
      (coll, true)
    else
      (coll ++ [⟨p.symbol, ts, ct, p.price⟩], true)

/-- Number of persisted price documents with the given
(symbol, timestamp) key. -/
def countPriceKey (coll : List StoredPrice) (s : String) (t : Int) : Nat :=
  (coll.filter (fun d => d.symbol == s && d.timestamp == t)).length

/-! ## config.py

Source descriptors of `DEFAULT_CONFIG` plus the two module attributes
that `data_collector.py` reads from the config module. They are `Option`
valued because attribute access on a Python module can raise
`AttributeError`; `config.py` as committed defines neither
`ARTICLES_PER_QUERY` nor `DEFAULT_DELAY_HOURS`, which `realConfig`
records as `none`. -/

/-- An entry of `DEFAULT_CONFIG["news_queries"]`. -/
structure NewsQueryCfg where
  name : String
  query : String
  collection : String
  delay_hours : Option Nat := none
deriving DecidableEq, Repr

/-- An entry of `DEFAULT_CONFIG["assets"]["crypto"]`. -/
structure CryptoCfg where
  name : String
  symbol : String
  collection : String
  query : Option String := none
  news_collection : Option String := none
  delay_hours : Option Nat := none
deriving DecidableEq, Repr

/-- An entry of `DEFAULT_CONFIG["assets"]["indices"]`. -/
structure IndexCfg where
  name : String
  symbol : String
  collection : String
  delay_hours : Option Nat := none
deriving DecidableEq, Repr

/-- The parts of the config module that the collector reads. -/
structure Config where
  news_queries : List NewsQueryCfg
  crypto : List CryptoCfg
  indices : List IndexCfg
  ARTICLES_PER_QUERY : Option Nat
  DEFAULT_DELAY_HOURS : Option Nat
deriving DecidableEq, Repr

/-- The configuration actually committed in `src/src/config.py`: the
`DEFAULT_CONFIG` sources, and no `ARTICLES_PER_QUERY` or
`DEFAULT_DELAY_HOURS` module attribute (neither name is assigned
anywhere in `config.py`, although `data_collector.py` reads both). -/
def realConfig : Config where
  news_queries := [⟨"Global Economy",
    "global economy OR economic outlook OR financial markets",
    "global_economy_articles", none⟩]
  crypto := [⟨"Bitcoin", "BTC-USD", "bitcoin_price",
    some "bitcoin OR btc", some "bitcoin_articles", none⟩]
  indices := [⟨"S&P 500", "^GSPC", "sp500", none⟩]
  ARTICLES_PER_QUERY := none
  DEFAULT_DELAY_HOURS := none

/-! ## data_collector.py: collect_news_for_query

Python's `list.sort(key=..., reverse=True)` is a stable sort that keeps
the original order of elements with equal keys; it is modelled by a
stable insertion sort, descending on the sort key. -/

/-- Insert `x` into an accumulator already sorted for the stable
descending order: `x` goes after every earlier element whose key is at
least its own (so elements with equal keys keep their original order). -/
def insertKeep {α : Type} (keepBefore : α → α → Bool) (x : α) :
    List α → List α
  | [] => [x]
  | y :: ys => if keepBefore x y then y :: insertKeep keepBefore x ys
               else x :: y :: ys

/-- Stable sort: fold the input, inserting each element into the sorted
accumulator. -/
def stableSortBy {α : Type} (keepBefore : α → α → Bool) (l : List α) :
    List α :=
  l.foldl (fun acc x => insertKeep keepBefore x acc) []

/-- Sort key of `articles.sort(key=lambda x: x.get('publishedAt', ''))`. -/
def pubKey (a : RawArticle) : String :=
  a.publishedAt.getD ""

/-- The article sort of data_collector.py line 68: stable, descending on
the `publishedAt` string. -/
def sortByPublishedAtDesc (l : List RawArticle) : List RawArticle :=
  stableSortBy (fun x y => pubKey x ≤ pubKey y) l

/-- Python `datetime.date()` of a timestamp: the day index (floor). -/
def dateOf (t : Int) : Int :=
  Int.fdiv t 86400

/-- `DataCollector.collect_news_for_query` (data_collector.py lines
28-84). The news search API is the parameter
`api : query → from-date → to-date → Except Unit (List RawArticle)`
(`Except.error` models a transport or API error). The blanket
`except Exception` makes the function return the unchanged collection
and `[]` whenever the delay default lookup, the API call or the
`config.ARTICLES_PER_QUERY` attribute access raises. On success the
sorted, truncated slice is persisted through `insert_articles` and
returned. -/
def collect_news_for_query (cfg : Config) (parse : String → Option Int)
    (api : String → Int → Int → Except Unit (List RawArticle))
    (coll : List StoredDoc) (query _collection : String)
    (delay_hours : Option Nat) (now : Int) :
    List StoredDoc × List RawArticle :=
  match (match delay_hours with
         | some d => Except.ok d
         | none => configAttr cfg.DEFAULT_DELAY_HOURS) with
  | Except.error _ => (coll, [])
  | Except.ok delay =>
    let end_date := now - 3600 * (delay : Int)
    let start_date := end_date - 86400
    match api query (dateOf start_date) (dateOf end_date) with
    | Except.error _ => (coll, [])
    | Except.ok articles =>
      let sorted := sortByPublishedAtDesc articles
      match configAttr cfg.ARTICLES_PER_QUERY with
      | Except.error _ => (coll, [])
      | Except.ok perQuery =>
        let articles_to_store := sorted.take perQuery
        ((insert_articles parse now coll articles_to_store).1,
          articles_to_store)

/-! ## data_collector.py: collect_and_store_all_data

The orchestrator is embedded with the two per-source collectors as
parameters (`collectNews query collection delay` and
`collectPrice symbol collection delay`, the latter returning the
`price_data is not None` flag); `Except.error` models an exception
raised while processing that source, caught by the per-source
`try/except` blocks. -/

/-- The per-invocation result map pair. -/
structure ResultMaps where
  news_articles : List (String × Nat)
  price_data : List (String × Bool)
deriving DecidableEq, Repr

/-- The `except` branch of the crypto loop (data_collector.py lines
230-234): record a zero article count unless one was already recorded,
and a false price flag. -/
def recordCryptoFailure (r : ResultMaps) (name : String) : ResultMaps :=
  ⟨if dictContains r.news_articles name then r.news_articles
    else dictInsert r.news_articles name 0,
   dictInsert r.price_data name false⟩

/-- One iteration of the news-query loop (data_collector.py lines
195-208). `news_config.get("delay_hours", config.DEFAULT_DELAY_HOURS)`
evaluates the attribute eagerly, so the lookup raises whenever the
config module lacks the attribute. -/
def newsQueryStep (cfg : Config)
    (collectNews : String → String → Nat → Except Unit (List RawArticle))
    (r : ResultMaps) (nq : NewsQueryCfg) : ResultMaps :=
  match configAttr cfg.DEFAULT_DELAY_HOURS with
  | Except.error _ => ⟨dictInsert r.news_articles nq.name 0, r.price_data⟩
  | Except.ok d =>
    match collectNews nq.query nq.collection (nq.delay_hours.getD d) with
    | Except.ok articles =>
      ⟨dictInsert r.news_articles nq.name articles.length, r.price_data⟩
    | Except.error _ =>
      ⟨dictInsert r.news_articles nq.name 0, r.price_data⟩

/-- One iteration of the crypto loop (data_collector.py lines 211-234):
optional news fetch first (only when both `query` and `news_collection`
are configured), then the price fetch; whichever step raises first sends
the iteration to `recordCryptoFailure`. -/
def cryptoStep (cfg : Config)
    (collectNews : String → String → Nat → Except Unit (List RawArticle))
    (collectPrice : String → String → Nat → Except Unit Bool)
    (r : ResultMaps) (c : CryptoCfg) : ResultMaps :=
  match configAttr cfg.DEFAULT_DELAY_HOURS with
  | Except.error _ => recordCryptoFailure r c.name
  | Except.ok d =>
    let delay := c.delay_hours.getD d
    match c.query, c.news_collection with
    | some q, some ncol =>
      match collectNews q ncol delay with
      | Except.error _ => recordCryptoFailure r c.name
      | Except.ok articles =>
        let r1 : ResultMaps :=
          ⟨dictInsert r.news_articles c.name articles.length, r.price_data⟩
        match collectPrice c.symbol c.collection delay with
        | Except.error _ => recordCryptoFailure r1 c.name
        | Except.ok b =>
          ⟨r1.news_articles, dictInsert r1.price_data c.name b⟩
    | _, _ =>
      match collectPrice c.symbol c.collection delay with
      | Except.error _ => recordCryptoFailure r c.name
      | Except.ok b =>
        ⟨r.news_articles, dictInsert r.price_data c.name b⟩

/-- One iteration of the indices loop (data_collector.py lines 237-250). -/
def indexStep (cfg : Config)
    (collectPrice : String → String → Nat → Except Unit Bool)
    (r : ResultMaps) (ix : IndexCfg) : ResultMaps :=
  match configAttr cfg.DEFAULT_DELAY_HOURS with
  | Except.error _ => ⟨r.news_articles, dictInsert r.price_data ix.name false⟩
  | Except.ok d =>
    match collectPrice ix.symbol ix.collection (ix.delay_hours.getD d) with
    | Except.ok b => ⟨r.news_articles, dictInsert r.price_data ix.name b⟩
    | Except.error _ =>
      ⟨r.news_articles, dictInsert r.price_data ix.name false⟩

/-- `DataCollector.collect_and_store_all_data` (data_collector.py lines
176-260): the three source loops in order, starting from empty result
maps. -/
def collect_and_store_all_data (cfg : Config)
    (collectNews : String → String → Nat → Except Unit (List RawArticle))
    (collectPrice : String → String → Nat → Except Unit Bool) : ResultMaps :=
  let r1 := cfg.news_queries.foldl (newsQueryStep cfg collectNews) ⟨[], []⟩
  let r2 := cfg.crypto.foldl (cryptoStep cfg collectNews collectPrice) r1
  cfg.indices.foldl (indexStep cfg collectPrice) r2

/-! ## run_collector.py: main -/

/-- Exit code computed by `run_collector.main` after the collection
attempt (run_collector.py lines 65-99), translated statement by
statement. `Except.error` is an exception escaping
`collect_and_store_all_data`, answered by `sys.exit(1)`. On a normal
return the script sets `success = article_count > 0 or price_count > 0`,
but then the summary-logging loop
`for name, success in results["price_data"].items()` reuses the variable
`success` as its loop target, so after logging, `success` holds the last
price flag (when the price map is nonempty); the final check exits 1
when that value is falsy. The reassigning loop is kept here as the fold
over `price_data`. -/
def exit_after_run (outcome : Except Unit ResultMaps) : Nat :=
  match outcome with
  | Except.error _ => 1
  | Except.ok results =>
    let article_count := (results.news_articles.map Prod.snd).sum
    let price_count := (results.price_data.filter Prod.snd).length
    let success := decide (0 < article_count) || decide (0 < price_count)
    let success := results.price_data.foldl (fun _ p => p.2) success
    if success then 0 else 1

/-- How old a lock marker must be (in seconds) before it is considered
stale (run_collector.py line 33). -/
def lockStaleSeconds : Int := 1800

/-- The lock-freshness test of run_collector.py lines 30-38: a marker
exists and its mtime is less than 30 minutes old. -/
def lockIsFresh (lock : Option Int) (now : Int) : Bool :=
  match lock with
  | some t => now - t < lockStaleSeconds
  | none => false

/-- Observable outcome of one invocation of `run_collector.main`. -/
structure MainOutcome where
  exitCode : Nat
  ranCollection : Bool
  lockDuringRun : Option Int
  finalLock : Option Int
deriving DecidableEq, Repr

/-- `run_collector.main` (run_collector.py lines 24-99): with a fresh
lock marker the process exits 0 immediately, running no collection and
leaving the marker as it was; otherwise it overwrites the marker with
the current time, runs the collection (whose outcome, including an
escaping exception, is the `outcome` parameter), removes the marker in
the `finally` block, and exits with `exit_after_run outcome`. -/
def collector_main (lock : Option Int) (now : Int)
    (outcome : Except Unit ResultMaps) : MainOutcome :=
  if lockIsFresh lock now then
    ⟨0, false, lock, lock⟩
  else
    ⟨exit_after_run outcome, true, some now, none⟩

/-! ## sentiment_analyzer.py -/

/-- `SentimentAnalyzer._preprocess_text` (sentiment_analyzer.py lines
68-83): `' '.join(text.split())`. -/
def preprocess_text (text : String) : String :=
  if text = "" then ""
  else String.intercalate " "
    ((text.split Char.isWhitespace).filter (fun w => w ≠ ""))

/-- The score-to-label thresholds shared by
`analyze_sentiment_finbert` (lines 150-155) and
`get_average_sentiment` (lines 259-264). -/
def labelOf (score : ℚ) : String :=
  if score < 2/5 then "negative"
  else if score > 3/5 then "positive"
  else "neutral"

/-- `SentimentAnalyzer.analyze_sentiment_finbert` (sentiment_analyzer.py
lines 85-160). The NLTK sentence tokenizer and the per-sentence FinBERT
pass are opaque parameters; `scoreSentence` returns the probability
combination `probs[2] + 0.5 * probs[1]` for a sentence, with `none`
modelling the caught per-sentence exception. Sentences shorter than 5
characters are skipped; with no scores at all the neutral default is
returned, otherwise the average score and its threshold label. -/
def analyze_sentiment_finbert (sentTokenize : String → List String)
    (scoreSentence : String → Option ℚ) (text : String) : SentimentRecord :=
  if text = "" || text.length < 10 then ⟨1/2, "neutral"⟩
  else
    let pre := preprocess_text text
    if pre = "" then ⟨1/2, "neutral"⟩
    else
      let sentences := sentTokenize pre
      let scores := sentences.filterMap
        (fun s => if s.length < 5 then none else scoreSentence s)
      if scores.isEmpty then ⟨1/2, "neutral"⟩
      else
        let avg := scores.sum / (scores.length : ℚ)
        ⟨avg, labelOf avg⟩

/-- `MongoDBClient.get_articles_with_sentiment` (database.py lines
366-393): documents carrying a sentiment sub-record whose publish time
lies in the last `days` days, sorted by publish time descending. -/
def get_articles_with_sentiment (coll : List StoredDoc) (days : Nat)
    (now : Int) : List StoredDoc :=
  let start_date := now - 86400 * (days : Int)
  stableSortBy (fun x y => decide (x.published_at ≤ y.published_at))
    (coll.filter (fun d =>
      d.sentiment.isSome && decide (start_date ≤ d.published_at) &&
        decide (d.published_at ≤ now)))

/-- The result dictionary of `get_average_sentiment`; `label = none`
models a dictionary without the `label` key. -/
structure AvgSentiment where
  score : ℚ
  label : Option String
  article_count : Nat
deriving DecidableEq, Repr

/-- `SentimentAnalyzer.get_average_sentiment` (sentiment_analyzer.py
lines 227-270): the two empty cases return score 0.5 and count 0 with no
label key; otherwise the average score, its label and the count. -/
def get_average_sentiment (coll : List StoredDoc) (days : Nat) (now : Int) :
    AvgSentiment :=
  let articles := get_articles_with_sentiment coll days now
  if articles.isEmpty then ⟨1/2, none, 0⟩
  else
    let score_sum := ((articles.filterMap StoredDoc.sentiment).map
      SentimentRecord.score).sum
    let count := (articles.filter (fun a => a.sentiment.isSome)).length
    if count = 0 then ⟨1/2, none, 0⟩
    else
      let avg := score_sum / (count : ℚ)
      ⟨avg, some (labelOf avg), count⟩

/-! ## Helper lemmas -/

theorem filter_length_pos_iff_any {α : Type} (p : α → Bool) (l : List α) :
    0 < (l.filter p).length ↔ l.any p = true := by
  rw [List.length_pos_iff_exists_mem]
  simp [List.mem_filter, List.any_eq_true]

theorem countKey_append (c1 c2 : List StoredDoc) (t : String)
    (s : Option String) :
    countKey (c1 ++ c2) t s = countKey c1 t s + countKey c2 t s := by
  simp [countKey, List.filter_append]

theorem matchesKey_iff (d : StoredDoc) (t : String) (s : Option String) :
    matchesKey d t s = true ↔ d.title = t ∧ d.sourceName = s := by
  simp [matchesKey]

theorem countKey_singleton (d : StoredDoc) (t : String) (s : Option String) :
    countKey [d] t s = if matchesKey d t s then 1 else 0 := by
  by_cases hm : matchesKey d t s = true <;>
    simp [countKey, List.filter_cons, List.filter_nil, hm]

theorem countPriceKey_singleton (q : StoredPrice) (s : String) (t : Int) :
    countPriceKey [q] s t = if q.symbol = s ∧ q.timestamp = t then 1 else 0 := by
  by_cases h : q.symbol = s ∧ q.timestamp = t
  · have hb : (q.symbol == s && q.timestamp == t) = true := by
      rw [Bool.and_eq_true, beq_iff_eq, beq_iff_eq]
      exact h
    simp [countPriceKey, List.filter_cons, List.filter_nil, hb, h]
  · have hb : ¬(q.symbol == s && q.timestamp == t) = true := by
      rw [Bool.and_eq_true, beq_iff_eq, beq_iff_eq]
      exact h
    simp [countPriceKey, List.filter_cons, List.filter_nil, hb, h]

/-- The fold of upsert-if-absent operations in `insert_articles` keeps
every key's multiplicity at most one, and only appends new documents
after the existing ones. -/
theorem upsertFold_spec (docs : List StoredDoc) (coll : List StoredDoc)
    (cnt : Nat) (t : String) (s : Option String)
    (h : countKey coll t s ≤ 1) :
    countKey (docs.foldl upsertStep (coll, cnt)).1 t s ≤ 1 ∧
    ∃ extra, (docs.foldl upsertStep (coll, cnt)).1 = coll ++ extra := by
  induction docs generalizing coll cnt with
  | nil =>
    exact ⟨h, ⟨([] : List StoredDoc), (List.append_nil coll).symm⟩⟩
  | cons d ds ih =>
    rw [List.foldl_cons]
    by_cases hc : coll.any (fun e => matchesKey e d.title d.sourceName) = true
    · rw [show upsertStep (coll, cnt) d = (coll, cnt) by simp [upsertStep, hc]]
      exact ih coll cnt h
    · rw [show upsertStep (coll, cnt) d = (coll ++ [d], cnt + 1) by
        simp [upsertStep, hc]]
      have hnew : countKey (coll ++ [d]) t s ≤ 1 := by
        rw [countKey_append, countKey_singleton]
        by_cases hm : matchesKey d t s = true
        · have hkey := (matchesKey_iff d t s).mp hm
          have hzero : countKey coll t s = 0 := by
            by_contra hz
            have hpos : 0 < countKey coll t s := Nat.pos_of_ne_zero hz
            rw [countKey, filter_length_pos_iff_any] at hpos
            rw [← hkey.1, ← hkey.2] at hpos
            exact hc hpos
          rw [hzero, if_pos hm]
        · rw [if_neg hm]
          omega
      obtain ⟨hle, extra, hext⟩ := ih (coll ++ [d]) (cnt + 1) hnew
      exact ⟨hle, ⟨[d] ++ extra, by rw [hext, List.append_assoc]⟩⟩

/-- C1: for every two article documents with the same (title, source
name) submitted to `insert_articles` — in the same call or across calls
— at most one record is ever persisted; the upsert-if-absent never
touches already existing records (the collection only grows by appended
new documents). -/
theorem insert_articles_dedup (parse : String → Option Int) (now : Int)
    (coll : List StoredDoc) (articles : List RawArticle) (t : String)
    (s : Option String) (h : countKey coll t s ≤ 1) :
    countKey (insert_articles parse now coll articles).1 t s ≤ 1 ∧
    ∃ extra, (insert_articles parse now coll articles).1 = coll ++ extra := by
  unfold insert_articles
  by_cases he : articles.isEmpty
  · simp only [he, if_true]
    exact ⟨h, ⟨([] : List StoredDoc), (List.append_nil coll).symm⟩⟩
  · simp only [he, Bool.false_eq_true, if_false]
    exact upsertFold_spec _ coll 0 t s h

/-- Witness for C1: submitting the same (title, source) twice in one
batch persists a single record appended after the (empty) collection. -/
theorem insert_articles_dedup_witness :
    countKey [] "T" (some "S") ≤ 1 ∧
    (countKey (insert_articles (fun _ => none) 100 []
        [⟨"T", some "S", none, ""⟩, ⟨"T", some "S", some "x", ""⟩]).1
        "T" (some "S") ≤ 1 ∧
      ∃ extra, (insert_articles (fun _ => none) 100 []
        [⟨"T", some "S", none, ""⟩, ⟨"T", some "S", some "x", ""⟩]).1
        = [] ++ extra) :=
  ⟨by decide,
   insert_articles_dedup (fun _ => none) 100 []
     [⟨"T", some "S", none, ""⟩, ⟨"T", some "S", some "x", ""⟩]
     "T" (some "S") (by decide)⟩

/-- C3: `insert_price_data` never lets two records share a
(symbol, timestamp) key, and when a matching record already exists it
returns `true` while leaving the collection unchanged (no second
insert). -/
theorem insert_price_data_dedup (coll : List StoredPrice) (p : PricePoint)
    (now : Int) (h : ∀ s t, countPriceKey coll s t ≤ 1) :
    (∀ s t, countPriceKey (insert_price_data coll (some p) now).1 s t ≤ 1) ∧
    (insert_price_data coll (some p) now).2 = true ∧
    (0 < countPriceKey coll p.symbol (p.timestamp.getD now) →
      (insert_price_data coll (some p) now).1 = coll) := by
  simp only [insert_price_data]
  by_cases hc : coll.any
      (fun d => d.symbol == p.symbol && d.timestamp == p.timestamp.getD now) = true
  · rw [if_pos hc]
    exact ⟨h, rfl, fun _ => rfl⟩
  · rw [if_neg hc]
    refine ⟨?_, rfl, ?_⟩
    · intro s t
      have hsplit : countPriceKey
          (coll ++ [⟨p.symbol, p.timestamp.getD now,
            p.collection_time.getD now, p.price⟩]) s t
          = countPriceKey coll s t +
            countPriceKey [⟨p.symbol, p.timestamp.getD now,
              p.collection_time.getD now, p.price⟩] s t := by
        simp [countPriceKey, List.filter_append]
      rw [hsplit, countPriceKey_singleton]
      by_cases hm : ((⟨p.symbol, p.timestamp.getD now,
          p.collection_time.getD now, p.price⟩ : StoredPrice).symbol = s ∧
          (⟨p.symbol, p.timestamp.getD now,
            p.collection_time.getD now, p.price⟩ : StoredPrice).timestamp = t)
      · have hzero : countPriceKey coll s t = 0 := by
          by_contra hz
          have hpos : 0 < countPriceKey coll s t := Nat.pos_of_ne_zero hz
          rw [countPriceKey, filter_length_pos_iff_any] at hpos
          rw [← hm.1, ← hm.2] at hpos
          exact hc hpos
        rw [hzero, if_pos hm]
      · rw [if_neg hm]
        have := h s t
        omega
    · intro hpos
      rw [countPriceKey, filter_length_pos_iff_any] at hpos
      exact absurd hpos hc

/-! ## C6: published-date fallback and warnings -/

/-- Counterexample for C6 as stated: an article whose `publishedAt` key
is missing gets the storage-time fallback (`published_at = stored_at`),
but `insert_articles` logs no warning at all for it — the warning is only
logged in the unparseable-string branch (database.py line 171), not in
the missing-key branch (lines 174-179). -/
theorem insert_articles_missing_date_cex :
    (insert_articles (fun _ => none) 100 [] [⟨"T", some "S", none, ""⟩]).1
      = [⟨"T", some "S", 100, 100, "", none⟩] ∧
    (insert_articles (fun _ => none) 100 [] [⟨"T", some "S", none, ""⟩]).2.2
      = [] := by
  decide

/-- Titles and source names survive timestamp normalization. -/
theorem normalizeArticle_key (parse : String → Option Int) (now : Int)
    (a : RawArticle) :
    (normalizeArticle parse now a).1.title = a.title ∧
    (normalizeArticle parse now a).1.sourceName = a.source := by
  cases ha : a.publishedAt with
  | none => simp [normalizeArticle, ha]
  | some s => cases hp : parse s <;> simp [normalizeArticle, ha, hp]

/-- C6 (amended): an article whose `publishedAt` string cannot be parsed
is persisted with `published_at` equal to `stored_at` and a parse-failure
warning; an article with no `publishedAt` at all gets the same fallback
but silently, with no warning; a parsed publish time more than 48 hours
before storage keeps the parsed value and logs the staleness warning. -/
theorem insert_articles_date_fallback (parse : String → Option Int)
    (now : Int) (coll : List StoredDoc) (a : RawArticle)
    (hfresh : coll.any (fun e => matchesKey e a.title a.source) = false) :
    insert_articles parse now coll [a]
      = (coll ++ [(normalizeArticle parse now a).1], 1,
          (normalizeArticle parse now a).2) ∧
    (a.publishedAt = none →
      (normalizeArticle parse now a).1.published_at = now ∧
      (normalizeArticle parse now a).1.stored_at = now ∧
      (normalizeArticle parse now a).2 = []) ∧
    (∀ s, a.publishedAt = some s → parse s = none →
      (normalizeArticle parse now a).1.published_at = now ∧
      (normalizeArticle parse now a).1.stored_at = now ∧
      (normalizeArticle parse now a).2 = [ArticleWarning.parseFailed]) ∧
    (∀ s t, a.publishedAt = some s → parse s = some t →
      (normalizeArticle parse now a).1.published_at = t ∧
      (now - t > 172800 →
        (normalizeArticle parse now a).2
          = [ArticleWarning.publishedLongBefore])) := by
  refine ⟨?_, ?_, ?_, ?_⟩
  · have hkey := normalizeArticle_key parse now a
    unfold insert_articles
    simp only [List.isEmpty_cons, if_false, Bool.false_eq_true, List.map_cons,
      List.map_nil, List.flatten, List.foldl_cons, List.foldl_nil,
      List.append_nil]
    rw [show upsertStep (coll, 0) (normalizeArticle parse now a).1
        = (coll ++ [(normalizeArticle parse now a).1], 0 + 1) by
      unfold upsertStep
      rw [if_neg]
      simp only [hkey.1, hkey.2]
      rw [hfresh]
      exact Bool.false_ne_true]
  · intro hnone
    simp [normalizeArticle, hnone]
  · intro s hs hp
    simp [normalizeArticle, hs, hp]
  · intro s t hs hp
    refine ⟨by simp [normalizeArticle, hs, hp], fun hold => ?_⟩
    simp [normalizeArticle, hs, hp, hold]

/-- Witness for C6 (amended): a concrete unparseable article gets the
fallback with a parse-failure warning. -/
theorem insert_articles_date_fallback_witness :
    (([] : List StoredDoc).any
        (fun e => matchesKey e "T" (some "S")) = false) ∧
    ((normalizeArticle (fun _ => (none : Option Int)) 100
        ⟨"T", some "S", some "not a date", ""⟩).1.published_at = 100 ∧
      (normalizeArticle (fun _ => (none : Option Int)) 100
        ⟨"T", some "S", some "not a date", ""⟩).1.stored_at = 100 ∧
      (normalizeArticle (fun _ => (none : Option Int)) 100
        ⟨"T", some "S", some "not a date", ""⟩).2
        = [ArticleWarning.parseFailed]) :=
  ⟨by decide,
   (insert_articles_date_fallback (fun _ => none) 100 []
      ⟨"T", some "S", some "not a date", ""⟩
      (by decide)).2.2.1 "not a date" rfl rfl⟩

/-- Witness for C3: re-submitting a price point whose (symbol,
timestamp) is already stored returns success and inserts nothing. -/
theorem insert_price_data_dedup_witness :
    (∀ s t, countPriceKey [⟨"BTC-USD", 500, 600, 42⟩] s t ≤ 1) ∧
    ((∀ s t, countPriceKey (insert_price_data [⟨"BTC-USD", 500, 600, 42⟩]
        (some ⟨"BTC-USD", some 500, some 700, 43⟩) 800).1 s t ≤ 1) ∧
      (insert_price_data [⟨"BTC-USD", 500, 600, 42⟩]
        (some ⟨"BTC-USD", some 500, some 700, 43⟩) 800).2 = true ∧
      (0 < countPriceKey [⟨"BTC-USD", 500, 600, 42⟩] "BTC-USD"
          ((some (500 : Int)).getD 800) →
        (insert_price_data [⟨"BTC-USD", 500, 600, 42⟩]
          (some ⟨"BTC-USD", some 500, some 700, 43⟩) 800).1
          = [⟨"BTC-USD", 500, 600, 42⟩])) := by
  constructor
  · intro s t
    simp only [countPriceKey, List.filter]
    split <;> simp
  · exact insert_price_data_dedup [⟨"BTC-USD", 500, 600, 42⟩]
      ⟨"BTC-USD", some 500, some 700, 43⟩ 800
      (by intro s t; simp only [countPriceKey, List.filter]; split <;> simp)

/-! ## C9: analyze_sentiment_finbert score bounds and labels -/

theorem list_sum_le_length (l : List ℚ) (h : ∀ q ∈ l, q ≤ 1) :
    l.sum ≤ (l.length : ℚ) := by
  induction l with
  | nil => simp
  | cons q l ih =>
    have hq : q ≤ 1 := h q (List.mem_cons_self q l)
    have hl : l.sum ≤ (l.length : ℚ) :=
      ih fun x hx => h x (List.mem_cons_of_mem q hx)
    rw [List.sum_cons, List.length_cons]
    push_cast
    linarith

theorem labelOf_half : labelOf (1/2) = "neutral" := by
  unfold labelOf
  norm_num

theorem labelOf_spec (q : ℚ) :
    (labelOf q = "negative" ↔ q < 2/5) ∧
    (labelOf q = "positive" ↔ 3/5 < q) ∧
    (labelOf q = "neutral" ↔ (2/5 ≤ q ∧ q ≤ 3/5)) := by
  unfold labelOf
  by_cases h1 : q < 2/5
  · rw [if_pos h1]
    refine ⟨⟨fun _ => h1, fun _ => rfl⟩, ?_, ?_⟩
    · exact ⟨fun hh => absurd hh (by decide), fun hh => absurd hh (by linarith)⟩
    · exact ⟨fun hh => absurd hh (by decide), fun hh => absurd h1 (by
        push_neg
        exact hh.1)⟩
  · rw [if_neg h1]
    push_neg at h1
    by_cases h2 : q > 3/5
    · rw [if_pos h2]
      refine ⟨?_, ⟨fun _ => h2, fun _ => rfl⟩, ?_⟩
      · exact ⟨fun hh => absurd hh (by decide), fun hh => absurd hh (by linarith)⟩
      · exact ⟨fun hh => absurd hh (by decide), fun hh => absurd h2 (by
          push_neg
          exact hh.2)⟩
    · rw [if_neg h2]
      push_neg at h2
      refine ⟨?_, ?_, ⟨fun _ => ⟨h1, h2⟩, fun _ => rfl⟩⟩
      · exact ⟨fun hh => absurd hh (by decide), fun hh => absurd hh (by linarith)⟩
      · exact ⟨fun hh => absurd hh (by decide), fun hh => absurd hh (by linarith)⟩

/-- Every result of `analyze_sentiment_finbert` has a score in [0, 1]
and its label is exactly the threshold label of that score, provided the
per-sentence scores are themselves in [0, 1] (as softmax probability
combinations are). -/
theorem analyze_sentiment_shape (tok : String → List String)
    (score : String → Option ℚ) (text : String)
    (h : ∀ s q, score s = some q → 0 ≤ q ∧ q ≤ 1) :
    0 ≤ (analyze_sentiment_finbert tok score text).score ∧
    (analyze_sentiment_finbert tok score text).score ≤ 1 ∧
    (analyze_sentiment_finbert tok score text).label
      = labelOf (analyze_sentiment_finbert tok score text).score := by
  unfold analyze_sentiment_finbert
  by_cases he : (text = "" || decide (text.length < 10)) = true
  · rw [if_pos he]
    refine ⟨by norm_num, by norm_num, labelOf_half.symm⟩
  · rw [if_neg he]
    by_cases hp : preprocess_text text = ""
    · rw [if_pos hp]
      refine ⟨by norm_num, by norm_num, labelOf_half.symm⟩
    · rw [if_neg hp]
      set scores := (tok (preprocess_text text)).filterMap
        (fun s => if s.length < 5 then none else score s) with hscores
      by_cases hs : scores.isEmpty
      · rw [if_pos hs]
        refine ⟨by norm_num, by norm_num, labelOf_half.symm⟩
      · rw [if_neg hs]
        have hmem : ∀ q ∈ scores, 0 ≤ q ∧ q ≤ 1 := by
          intro q hq
          rw [hscores, List.mem_filterMap] at hq
          obtain ⟨s, _, hsq⟩ := hq
          by_cases hlen : s.length < 5
          · rw [if_pos hlen] at hsq
            exact absurd hsq (by simp)
          · rw [if_neg hlen] at hsq
            exact h s q hsq
        have hlenpos : 0 < scores.length := by
          rw [List.isEmpty_iff] at hs
          exact List.length_pos.mpr hs
        have hcast : (0 : ℚ) < (scores.length : ℚ) := by
          exact_mod_cast hlenpos
        have hsum0 : 0 ≤ scores.sum :=
          List.sum_nonneg fun q hq => (hmem q hq).1
        have hsum1 : scores.sum ≤ (scores.length : ℚ) :=
          list_sum_le_length scores fun q hq => (hmem q hq).2
        refine ⟨div_nonneg hsum0 (le_of_lt hcast), ?_, rfl⟩
        rw [div_le_one hcast]
        exact hsum1

/-- C9: for every input text the sentiment record has a score in [0, 1]
and a label among negative, neutral, positive, with negative exactly
below 0.4, positive exactly above 0.6, neutral otherwise; text shorter
than 10 characters (including empty text) yields exactly score 0.5 and
label neutral. Hypothesis: each opaque per-sentence score lies in [0, 1]
(softmax probabilities combined as p2 + 0.5 p1). -/
theorem analyze_sentiment_finbert_props (tok : String → List String)
    (score : String → Option ℚ) (text : String)
    (h : ∀ s q, score s = some q → 0 ≤ q ∧ q ≤ 1) :
    (0 ≤ (analyze_sentiment_finbert tok score text).score ∧
      (analyze_sentiment_finbert tok score text).score ≤ 1) ∧
    ((analyze_sentiment_finbert tok score text).label = "negative" ∨
      (analyze_sentiment_finbert tok score text).label = "neutral" ∨
      (analyze_sentiment_finbert tok score text).label = "positive") ∧
    ((analyze_sentiment_finbert tok score text).label = "negative" ↔
      (analyze_sentiment_finbert tok score text).score < 2/5) ∧
    ((analyze_sentiment_finbert tok score text).label = "positive" ↔
      3/5 < (analyze_sentiment_finbert tok score text).score) ∧
    ((analyze_sentiment_finbert tok score text).label = "neutral" ↔
      (2/5 ≤ (analyze_sentiment_finbert tok score text).score ∧
        (analyze_sentiment_finbert tok score text).score ≤ 3/5)) ∧
    (text.length < 10 →
      analyze_sentiment_finbert tok score text = ⟨1/2, "neutral"⟩) := by
  obtain ⟨h0, h1, hl⟩ := analyze_sentiment_shape tok score text h
  obtain ⟨hneg, hpos, hneu⟩ :=
    labelOf_spec (analyze_sentiment_finbert tok score text).score
  rw [← hl] at hneg hpos hneu
  refine ⟨⟨h0, h1⟩, ?_, hneg, hpos, hneu, ?_⟩
  · rw [hl]
    unfold labelOf
    split
    · exact Or.inl rfl
    · split
      · exact Or.inr (Or.inr rfl)
      · exact Or.inr (Or.inl rfl)
  · intro hshort
    unfold analyze_sentiment_finbert
    have : (text = "" || decide (text.length < 10)) = true := by
      simp [hshort]
    rw [if_pos this]

/-- Witness for C9 applied to a concrete tokenizer, scorer and text. -/
theorem analyze_sentiment_finbert_props_witness :
    (∀ s q, (fun (_ : String) => some ((7 : ℚ)/10)) s = some q →
      0 ≤ q ∧ q ≤ 1) ∧
    ((analyze_sentiment_finbert (fun s => [s])
        (fun _ => some ((7 : ℚ)/10)) "abcdefghijkl").label = "positive" ↔
      3/5 < (analyze_sentiment_finbert (fun s => [s])
        (fun _ => some ((7 : ℚ)/10)) "abcdefghijkl").score) := by
  have hb : ∀ s q, (fun (_ : String) => some ((7 : ℚ)/10)) s = some q →
      0 ≤ q ∧ q ≤ 1 := by
    intro s q hq
    have : ((7 : ℚ)/10) = q := by
      exact Option.some.inj hq
    rw [← this]
    norm_num
  exact ⟨hb, (analyze_sentiment_finbert_props (fun s => [s])
    (fun _ => some ((7 : ℚ)/10)) "abcdefghijkl" hb).2.2.2.1⟩

/-! ## C10: get_average_sentiment label key presence -/

theorem mem_insertKeep {α : Type} (keep : α → α → Bool) (x a : α)
    (l : List α) : a ∈ insertKeep keep x l ↔ a = x ∨ a ∈ l := by
  induction l with
  | nil => simp [insertKeep]
  | cons y ys ih =>
    unfold insertKeep
    by_cases hk : keep x y = true
    · rw [if_pos hk]
      simp only [List.mem_cons, ih]
      tauto
    · rw [if_neg hk]
      simp only [List.mem_cons]

theorem mem_stableSortBy_fold {α : Type} (keep : α → α → Bool)
    (l acc : List α) (a : α) :
    a ∈ l.foldl (fun acc x => insertKeep keep x acc) acc ↔
      a ∈ acc ∨ a ∈ l := by
  induction l generalizing acc with
  | nil => simp
  | cons y ys ih =>
    rw [List.foldl_cons, ih, mem_insertKeep]
    simp only [List.mem_cons]
    tauto

theorem mem_stableSortBy {α : Type} (keep : α → α → Bool) (l : List α)
    (a : α) : a ∈ stableSortBy keep l ↔ a ∈ l := by
  unfold stableSortBy
  rw [mem_stableSortBy_fold]
  simp

/-- Membership in the window-and-sentiment query result. -/
theorem mem_get_articles_with_sentiment (coll : List StoredDoc)
    (days : Nat) (now : Int) (d : StoredDoc) :
    d ∈ get_articles_with_sentiment coll days now ↔
      d ∈ coll ∧ d.sentiment.isSome = true ∧
        now - 86400 * (days : Int) ≤ d.published_at ∧
        d.published_at ≤ now := by
  unfold get_articles_with_sentiment
  rw [mem_stableSortBy, List.mem_filter]
  simp [and_assoc]

/-- C10: when no article in the look-back window carries a sentiment
sub-record, `get_average_sentiment` returns score 0.5 and count 0 with
no label key at all (`label = none` models the absent dictionary key);
when at least one such article exists, the result always carries a
label key. -/
theorem get_average_sentiment_label_key (coll : List StoredDoc)
    (days : Nat) (now : Int) :
    ((∀ d ∈ coll, d.sentiment.isSome = true →
        ¬(now - 86400 * (days : Int) ≤ d.published_at ∧
          d.published_at ≤ now)) →
      get_average_sentiment coll days now
        = ⟨1/2, none, 0⟩) ∧
    ((∃ d ∈ coll, d.sentiment.isSome = true ∧
        now - 86400 * (days : Int) ≤ d.published_at ∧
        d.published_at ≤ now) →
      (get_average_sentiment coll days now).label.isSome = true) := by
  constructor
  · intro hnone
    have hempty : get_articles_with_sentiment coll days now = [] := by
      by_contra hne
      obtain ⟨d, hd⟩ := List.exists_mem_of_ne_nil _ hne
      rw [mem_get_articles_with_sentiment] at hd
      exact hnone d hd.1 hd.2.1 ⟨hd.2.2.1, hd.2.2.2⟩
    unfold get_average_sentiment
    rw [hempty]
    rfl
  · rintro ⟨d, hd, hsome, hwin⟩
    have hmem : d ∈ get_articles_with_sentiment coll days now := by
      rw [mem_get_articles_with_sentiment]
      exact ⟨hd, hsome, hwin.1, hwin.2⟩
    unfold get_average_sentiment
    have hne : (get_articles_with_sentiment coll days now).isEmpty = false := by
      cases h : (get_articles_with_sentiment coll days now).isEmpty with
      | false => rfl
      | true =>
        rw [List.isEmpty_iff.mp h] at hmem
        exact absurd hmem (List.not_mem_nil d)
    simp only [hne, Bool.false_eq_true, if_false]
    have hall : (get_articles_with_sentiment coll days now).filter
        (fun a => a.sentiment.isSome)
        = get_articles_with_sentiment coll days now := by
      rw [List.filter_eq_self]
      intro a ha
      rw [mem_get_articles_with_sentiment] at ha
      exact ha.2.1
    have hcount : ((get_articles_with_sentiment coll days now).filter
        (fun a => a.sentiment.isSome)).length ≠ 0 := by
      rw [hall]
      intro hzero
      rw [List.length_eq_zero] at hzero
      rw [hzero] at hmem
      exact absurd hmem (List.not_mem_nil d)
    rw [if_neg hcount]
    rfl

/-- Witness for C10: one store with no in-window sentiment, one with it. -/
theorem get_average_sentiment_label_key_witness :
    ((∀ d ∈ ([⟨"T", none, 50, 50, "", none⟩] : List StoredDoc),
        d.sentiment.isSome = true →
        ¬((100 : Int) - 86400 * ((1 : Nat) : Int) ≤ d.published_at ∧
          d.published_at ≤ 100)) ∧
      get_average_sentiment [⟨"T", none, 50, 50, "", none⟩] 1 100
        = ⟨1/2, none, 0⟩) ∧
    ((∃ d ∈ ([⟨"U", none, 60, 60, "", some ⟨9/10, "positive"⟩⟩] :
        List StoredDoc), d.sentiment.isSome = true ∧
        (100 : Int) - 86400 * ((1 : Nat) : Int) ≤ d.published_at ∧
        d.published_at ≤ 100) ∧
      (get_average_sentiment [⟨"U", none, 60, 60, "", some ⟨9/10, "positive"⟩⟩]
        1 100).label.isSome = true) := by
  constructor
  · constructor
    · decide
    · exact (get_average_sentiment_label_key
        [⟨"T", none, 50, 50, "", none⟩] 1 100).1 (by decide)
  · constructor
    · decide
    · exact (get_average_sentiment_label_key
        [⟨"U", none, 60, 60, "", some ⟨9/10, "positive"⟩⟩] 1 100).2 (by decide)

/-! ## C7: advisory lock marker semantics -/

/-- C7: with a lock marker younger than 30 minutes, the invocation does
no collection work and exits 0 leaving the marker untouched; with a
marker 30 minutes old or older it proceeds, overwriting the marker with
the current time for the duration of the run; and whenever the
collection ran — whatever its outcome, including an escaping
exception — the marker is removed on exit. -/
theorem collector_main_lock (lock : Option Int) (now : Int)
    (outcome : Except Unit ResultMaps) :
    (lockIsFresh lock now = true →
      collector_main lock now outcome = ⟨0, false, lock, lock⟩) ∧
    (∀ t, lock = some t → lockStaleSeconds ≤ now - t →
      (collector_main lock now outcome).ranCollection = true ∧
      (collector_main lock now outcome).lockDuringRun = some now) ∧
    ((collector_main lock now outcome).ranCollection = true →
      (collector_main lock now outcome).finalLock = none) := by
  unfold collector_main
  by_cases hf : lockIsFresh lock now = true
  · rw [if_pos hf]
    refine ⟨fun _ => rfl, ?_, ?_⟩
    · intro t ht hstale
      rw [ht] at hf
      unfold lockIsFresh at hf
      rw [decide_eq_true_eq] at hf
      omega
    · intro hran
      exact absurd hran (by simp)
  · rw [if_neg hf]
    exact ⟨fun hfresh => absurd hfresh hf, fun _ _ _ => ⟨rfl, rfl⟩,
      fun _ => rfl⟩

/-- Witness for C7: a 60-second-old marker makes the invocation skip,
and a 2000-second-old marker makes it run and clean up. -/
theorem collector_main_lock_witness :
    (lockIsFresh (some 0) 60 = true ∧
      collector_main (some 0) 60 (Except.ok ⟨[], []⟩)
        = ⟨0, false, some 0, some 0⟩) ∧
    ((some (0 : Int) = some 0) ∧ lockStaleSeconds ≤ (2000 : Int) - 0 ∧
      ((collector_main (some 0) 2000 (Except.ok ⟨[], []⟩)).ranCollection
          = true ∧
        (collector_main (some 0) 2000
          (Except.ok ⟨[], []⟩)).lockDuringRun = some 2000)) :=
  ⟨⟨by decide,
    (collector_main_lock (some 0) 60 (Except.ok ⟨[], []⟩)).1 (by decide)⟩,
   ⟨rfl, by decide,
    (collector_main_lock (some 0) 2000
      (Except.ok ⟨[], []⟩)).2.1 0 rfl (by decide)⟩⟩

/-! ## C4: the exit code and the clobbered success flag

`run_collector.main` computes
`success = article_count > 0 or price_count > 0` (line 76) with the
explicit comment that partial success counts, and the spec promises exit
code 0 whenever at least one source produced data. But the summary
logging loop on line 82, `for name, success in
results["price_data"].items()`, reuses `success` as its loop variable,
so after logging `success` is just the *last* price flag. The theorem
below exhibits a run where articles and one price were collected, yet
the process exits 1 because the final configured price source (S&P 500,
iterated last) failed. -/

/-- C4 (code bug): a run with 8 collected articles and a stored Bitcoin
price exits 1 — although at least one source produced data — merely
because the last price flag is false. -/
theorem exit_after_run_clobbered_cex :
    exit_after_run (Except.ok ⟨[("Global Economy", 5), ("Bitcoin", 3)],
      [("Bitcoin", true), ("S&P 500", false)]⟩) = 1 ∧
    0 < (([("Global Economy", 5), ("Bitcoin", 3)] :
      List (String × Nat)).map Prod.snd).sum ∧
    0 < (([("Bitcoin", true), ("S&P 500", false)] :
      List (String × Bool)).filter Prod.snd).length := by
  decide

/-! ## C5: collect_news_for_query under the committed config

`data_collector.py` line 71 reads `config.ARTICLES_PER_QUERY`, but
`config.py` never defines that module attribute, so every call raises
`AttributeError` there; the blanket `except Exception` then returns the
empty list. Hence the function never sorts, truncates, persists or
returns any fetched slice under the committed configuration. -/

/-- C5 (code bug): with the committed config, a successful API response
containing one article still yields no persisted documents and an empty
returned slice, because the `ARTICLES_PER_QUERY` attribute is missing. -/
theorem collect_news_for_query_real_config_cex :
    collect_news_for_query realConfig (fun _ => some 1735689600)
      (fun _ _ _ => Except.ok [⟨"Bitcoin hits high", some "Reuters",
        some "2025-01-01T00:00:00Z", ""⟩])
      [] "bitcoin OR btc" "bitcoin_articles" (some 3) 1700000000
      = ([], []) ∧
    realConfig.ARTICLES_PER_QUERY = none := by
  decide

/-! ## C8: per-source article counts versus upserted counts -/

theorem length_insertKeep {α : Type} (keep : α → α → Bool) (x : α)
    (l : List α) : (insertKeep keep x l).length = l.length + 1 := by
  induction l with
  | nil => rfl
  | cons y ys ih =>
    unfold insertKeep
    by_cases hk : keep x y = true
    · rw [if_pos hk]
      simp [ih]
    · rw [if_neg hk]
      simp

theorem length_stableSortBy_fold {α : Type} (keep : α → α → Bool)
    (l acc : List α) :
    (l.foldl (fun acc x => insertKeep keep x acc) acc).length
      = acc.length + l.length := by
  induction l generalizing acc with
  | nil => simp
  | cons y ys ih =>
    rw [List.foldl_cons, ih, length_insertKeep, List.length_cons]
    omega

theorem length_stableSortBy {α : Type} (keep : α → α → Bool)
    (l : List α) : (stableSortBy keep l).length = l.length := by
  unfold stableSortBy
  rw [length_stableSortBy_fold]
  simp

/-- The config used in the spec's intended reading, where the two
collection constants exist (`config.py` as committed lacks both). -/
def patchedConfig : Config :=
  { realConfig with
    ARTICLES_PER_QUERY := some 20
    DEFAULT_DELAY_HOURS := some 3 }

/-- C8 (amended): with the per-query article cap configured and a
successful API response, `collect_news_for_query` returns exactly the
sorted slice truncated to the cap — so the per-source entry recorded by
the run (the length of the returned list) equals
min(cap, number fetched), not the batch upsert's new-record count. -/
theorem collect_news_entry_is_slice_length (cfg : Config)
    (parse : String → Option Int)
    (api : String → Int → Int → Except Unit (List RawArticle))
    (coll : List StoredDoc) (q c : String) (d : Nat) (now : Int)
    (k : Nat) (arts : List RawArticle)
    (hk : cfg.ARTICLES_PER_QUERY = some k)
    (hapi : api q (dateOf (now - 3600 * (d : Int) - 86400))
      (dateOf (now - 3600 * (d : Int))) = Except.ok arts) :
    (collect_news_for_query cfg parse api coll q c (some d) now).2
      = (sortByPublishedAtDesc arts).take k ∧
    ((collect_news_for_query cfg parse api coll q c (some d) now).2).length
      = min k arts.length := by
  have heq : (collect_news_for_query cfg parse api coll q c (some d) now).2
      = (sortByPublishedAtDesc arts).take k := by
    unfold collect_news_for_query
    simp only [hapi, hk, configAttr]
  refine ⟨heq, ?_⟩
  rw [heq, List.length_take]
  unfold sortByPublishedAtDesc
  rw [length_stableSortBy]

/-- Counterexample for C8 as stated: the store already holds the same
(title, source) article, the API returns it again; the per-source entry
recorded by the collection run is 1 (the length of the returned slice),
while the batch upsert reports 0 genuinely new records. -/
theorem news_count_vs_upserted_cex :
    dictLookup (collect_and_store_all_data
        ⟨[⟨"Bitcoin News", "bitcoin OR btc", "bitcoin_articles", none⟩],
          [], [], some 20, some 3⟩
        (fun q c dd => Except.ok ((collect_news_for_query
          ⟨[⟨"Bitcoin News", "bitcoin OR btc", "bitcoin_articles", none⟩],
            [], [], some 20, some 3⟩
          (fun _ => some 900000)
          (fun _ _ _ => Except.ok [⟨"BTC news", some "Reuters",
            some "2025-01-02T00:00:00Z", ""⟩])
          [⟨"BTC news", some "Reuters", 50, 50, "", none⟩]
          q c (some dd) 1000000).2))
        (fun _ _ _ => Except.ok true)).news_articles "Bitcoin News"
      = some 1 ∧
    (insert_articles (fun _ => some 900000) 1000000
      [⟨"BTC news", some "Reuters", 50, 50, "", none⟩]
      [⟨"BTC news", some "Reuters", some "2025-01-02T00:00:00Z", ""⟩]).2.1
      = 0 := by
  decide

/-- Witness for C8 (amended) at a concrete configuration, parser, API
response and store. -/
theorem collect_news_entry_is_slice_length_witness :
    patchedConfig.ARTICLES_PER_QUERY = some 20 ∧
    ((fun (_ : String) (_ : Int) (_ : Int) =>
        (Except.ok [⟨"A", some "S", some "2025-01-02T00:00:00Z", ""⟩,
          ⟨"B", some "S", some "2025-01-03T00:00:00Z", ""⟩] :
          Except Unit (List RawArticle))) "bitcoin OR btc"
        (dateOf ((1000000 : Int) - 3600 * ((3 : Nat) : Int) - 86400))
        (dateOf ((1000000 : Int) - 3600 * ((3 : Nat) : Int)))
      = Except.ok [⟨"A", some "S", some "2025-01-02T00:00:00Z", ""⟩,
          ⟨"B", some "S", some "2025-01-03T00:00:00Z", ""⟩]) ∧
    ((collect_news_for_query patchedConfig (fun _ => some 900000)
        (fun _ _ _ => Except.ok
          [⟨"A", some "S", some "2025-01-02T00:00:00Z", ""⟩,
           ⟨"B", some "S", some "2025-01-03T00:00:00Z", ""⟩])
        [] "bitcoin OR btc" "bitcoin_articles" (some 3) 1000000).2).length
      = min 20 ([⟨"A", some "S", some "2025-01-02T00:00:00Z", ""⟩,
          ⟨"B", some "S", some "2025-01-03T00:00:00Z", ""⟩] :
          List RawArticle).length :=
  ⟨rfl, rfl,
   (collect_news_entry_is_slice_length patchedConfig (fun _ => some 900000)
      (fun _ _ _ => Except.ok
        [⟨"A", some "S", some "2025-01-02T00:00:00Z", ""⟩,
         ⟨"B", some "S", some "2025-01-03T00:00:00Z", ""⟩])
      [] "bitcoin OR btc" "bitcoin_articles" 3 1000000 20
      [⟨"A", some "S", some "2025-01-02T00:00:00Z", ""⟩,
       ⟨"B", some "S", some "2025-01-03T00:00:00Z", ""⟩]
      rfl rfl).2⟩

/-! ## C2: per-source failure isolation in collect_and_store_all_data -/

theorem dictContains_eq_isSome {α : Type} (m : List (String × α))
    (k : String) : dictContains m k = (dictLookup m k).isSome := by
  induction m with
  | nil => rfl
  | cons p m ih =>
    unfold dictContains dictLookup
    rw [List.any_cons]
    by_cases hp : (p.1 == k) = true
    · rw [if_pos hp, hp]
      simp
    · have hp' : (p.1 == k) = false := Bool.eq_false_iff.mpr hp
      rw [if_neg hp, hp', Bool.false_or]
      exact ih

theorem dictLookup_eq_none_of_contains_false {α : Type}
    (m : List (String × α)) (k : String)
    (h : dictContains m k = false) : dictLookup m k = none := by
  rw [dictContains_eq_isSome] at h
  cases hl : dictLookup m k with
  | none => rfl
  | some v =>
    rw [hl] at h
    exact absurd h (by simp)

theorem dictLookup_map_replace {α : Type} (m : List (String × α))
    (k : String) (v : α) (h : m.any (fun p => p.1 == k) = true) :
    dictLookup (m.map (fun p => if p.1 == k then (k, v) else p)) k
      = some v := by
  induction m with
  | nil => exact absurd h (by simp)
  | cons p m ih =>
    rw [List.map_cons]
    by_cases hp : (p.1 == k) = true
    · rw [if_pos hp]
      unfold dictLookup
      rw [if_pos (by simp)]
    · rw [if_neg hp]
      have hm : m.any (fun p => p.1 == k) = true := by
        rw [List.any_cons] at h
        cases hb : (p.1 == k) with
        | true => exact absurd hb hp
        | false =>
          rw [hb, Bool.false_or] at h
          exact h
      unfold dictLookup
      rw [if_neg hp]
      exact ih hm

theorem dictLookup_append_not_contains {α : Type} (m : List (String × α))
    (k : String) (v : α) (h : m.any (fun p => p.1 == k) = false) :
    dictLookup (m ++ [(k, v)]) k = some v := by
  induction m with
  | nil =>
    rw [List.nil_append]
    unfold dictLookup
    rw [if_pos (by simp)]
  | cons p m ih =>
    rw [List.any_cons] at h
    have hp : (p.1 == k) = false := by
      cases hb : (p.1 == k) with
      | true =>
        rw [hb, Bool.true_or] at h
        exact absurd h (by simp)
      | false => rfl
    rw [List.cons_append]
    unfold dictLookup
    rw [if_neg (by rw [hp]; exact Bool.false_ne_true)]
    apply ih
    cases hm : m.any (fun p => p.1 == k) with
    | true =>
      rw [hp, hm] at h
      exact absurd h (by simp)
    | false => rfl

theorem dictLookup_insert_self {α : Type} (m : List (String × α))
    (k : String) (v : α) : dictLookup (dictInsert m k v) k = some v := by
  unfold dictInsert
  by_cases h : m.any (fun p => p.1 == k) = true
  · rw [if_pos h]
    exact dictLookup_map_replace m k v h
  · rw [if_neg h]
    exact dictLookup_append_not_contains m k v (Bool.eq_false_iff.mpr h)

theorem dictLookup_append_ne {α : Type} (m : List (String × α))
    (k k' : String) (v : α) (h : k' ≠ k) :
    dictLookup (m ++ [(k', v)]) k = dictLookup m k := by
  induction m with
  | nil =>
    rw [List.nil_append]
    unfold dictLookup
    rw [if_neg (by simpa using h)]
    rfl
  | cons p m ih =>
    rw [List.cons_append]
    unfold dictLookup
    by_cases hp : (p.1 == k) = true
    · rw [if_pos hp, if_pos hp]
    · rw [if_neg hp, if_neg hp]
      exact ih

theorem dictLookup_insert_ne {α : Type} (m : List (String × α))
    (k k' : String) (v : α) (h : k' ≠ k) :
    dictLookup (dictInsert m k' v) k = dictLookup m k := by
  unfold dictInsert
  by_cases ha : m.any (fun p => p.1 == k') = true
  · rw [if_pos ha]
    clear ha
    induction m with
    | nil => rfl
    | cons p m ih =>
      rw [List.map_cons]
      by_cases hp : (p.1 == k') = true
      · rw [if_pos hp]
        have hpk : ¬(p.1 == k) = true := by
          rw [beq_iff_eq] at hp ⊢
          rw [hp]
          exact h
        unfold dictLookup
        rw [if_neg (by simpa using h), if_neg hpk]
        exact ih
      · rw [if_neg hp]
        unfold dictLookup
        by_cases hpk : (p.1 == k) = true
        · rw [if_pos hpk, if_pos hpk]
        · rw [if_neg hpk, if_neg hpk]
          exact ih
  · rw [if_neg ha]
    exact dictLookup_append_ne m k k' v h

theorem dictContains_insert_self {α : Type} (m : List (String × α))
    (k : String) (v : α) : dictContains (dictInsert m k v) k = true := by
  rw [dictContains_eq_isSome, dictLookup_insert_self]
  rfl

theorem dictContains_insert_ne {α : Type} (m : List (String × α))
    (k k' : String) (v : α) (h : k' ≠ k) :
    dictContains (dictInsert m k' v) k = dictContains m k := by
  rw [dictContains_eq_isSome, dictContains_eq_isSome,
    dictLookup_insert_ne m k k' v h]

/-- The article count that one news-query iteration records for its
source: the length of the fetched list, or 0 when processing the source
raised (failed delay lookup or fetch exception). -/
def newsQueryOutcome (cfg : Config)
    (collectNews : String → String → Nat → Except Unit (List RawArticle))
    (nq : NewsQueryCfg) : Nat :=
  match configAttr cfg.DEFAULT_DELAY_HOURS with
  | Except.error _ => 0
  | Except.ok d =>
    match collectNews nq.query nq.collection (nq.delay_hours.getD d) with
    | Except.ok articles => articles.length
    | Except.error _ => 0

/-- The (news entry, price flag) pair that one crypto iteration records
for its source. `none` as first component means no news entry is written
(a crypto with no news configuration whose processing succeeded). -/
def cryptoEntries (cfg : Config)
    (collectNews : String → String → Nat → Except Unit (List RawArticle))
    (collectPrice : String → String → Nat → Except Unit Bool)
    (c : CryptoCfg) : Option Nat × Bool :=
  match configAttr cfg.DEFAULT_DELAY_HOURS with
  | Except.error _ => (some 0, false)
  | Except.ok d =>
    let delay := c.delay_hours.getD d
    match c.query, c.news_collection with
    | some q, some ncol =>
      match collectNews q ncol delay with
      | Except.error _ => (some 0, false)
      | Except.ok articles =>
        match collectPrice c.symbol c.collection delay with
        | Except.error _ => (some articles.length, false)
        | Except.ok b => (some articles.length, b)
    | _, _ =>
      match collectPrice c.symbol c.collection delay with
      | Except.error _ => (some 0, false)
      | Except.ok b => (none, b)

/-- The price flag that one index iteration records for its source. -/
def indexOutcome (cfg : Config)
    (collectPrice : String → String → Nat → Except Unit Bool)
    (ix : IndexCfg) : Bool :=
  match configAttr cfg.DEFAULT_DELAY_HOURS with
  | Except.error _ => false
  | Except.ok d =>
    match collectPrice ix.symbol ix.collection (ix.delay_hours.getD d) with
    | Except.ok b => b
    | Except.error _ => false

theorem newsQueryStep_eq (cfg : Config)
    (cN : String → String → Nat → Except Unit (List RawArticle))
    (r : ResultMaps) (nq : NewsQueryCfg) :
    newsQueryStep cfg cN r nq
      = ⟨dictInsert r.news_articles nq.name (newsQueryOutcome cfg cN nq),
         r.price_data⟩ := by
  cases hd : configAttr cfg.DEFAULT_DELAY_HOURS with
  | error e => simp [newsQueryStep, newsQueryOutcome, hd]
  | ok d =>
    cases hcn : cN nq.query nq.collection (nq.delay_hours.getD d) with
    | ok articles => simp [newsQueryStep, newsQueryOutcome, hd, hcn]
    | error e => simp [newsQueryStep, newsQueryOutcome, hd, hcn]

theorem cryptoStep_eq (cfg : Config)
    (cN : String → String → Nat → Except Unit (List RawArticle))
    (cP : String → String → Nat → Except Unit Bool)
    (r : ResultMaps) (c : CryptoCfg)
    (hc : dictContains r.news_articles c.name = false) :
    cryptoStep cfg cN cP r c
      = ⟨(match (cryptoEntries cfg cN cP c).1 with
          | some n => dictInsert r.news_articles c.name n
          | none => r.news_articles),
         dictInsert r.price_data c.name (cryptoEntries cfg cN cP c).2⟩ := by
  cases hd : configAttr cfg.DEFAULT_DELAY_HOURS with
  | error e => simp [cryptoStep, cryptoEntries, recordCryptoFailure, hd, hc]
  | ok d =>
    cases hq : c.query with
    | none =>
      cases hcp : cP c.symbol c.collection (c.delay_hours.getD d) with
      | error e =>
        simp [cryptoStep, cryptoEntries, recordCryptoFailure, hd, hq, hcp, hc]
      | ok b =>
        simp [cryptoStep, cryptoEntries, recordCryptoFailure, hd, hq, hcp]
    | some q =>
      cases hn : c.news_collection with
      | none =>
        cases hcp : cP c.symbol c.collection (c.delay_hours.getD d) with
        | error e =>
          simp [cryptoStep, cryptoEntries, recordCryptoFailure, hd, hq, hn,
            hcp, hc]
        | ok b =>
          simp [cryptoStep, cryptoEntries, recordCryptoFailure, hd, hq, hn,
            hcp]
      | some ncol =>
        cases hcn : cN q ncol (c.delay_hours.getD d) with
        | error e =>
          simp [cryptoStep, cryptoEntries, recordCryptoFailure, hd, hq, hn,
            hcn, hc]
        | ok articles =>
          cases hcp : cP c.symbol c.collection (c.delay_hours.getD d) with
          | error e =>
            simp [cryptoStep, cryptoEntries, recordCryptoFailure, hd, hq, hn,
              hcn, hcp, dictContains_insert_self]
          | ok b =>
            simp [cryptoStep, cryptoEntries, recordCryptoFailure, hd, hq, hn,
              hcn, hcp]

theorem indexStep_eq (cfg : Config)
    (cP : String → String → Nat → Except Unit Bool)
    (r : ResultMaps) (ix : IndexCfg) :
    indexStep cfg cP r ix
      = ⟨r.news_articles,
         dictInsert r.price_data ix.name (indexOutcome cfg cP ix)⟩ := by
  cases hd : configAttr cfg.DEFAULT_DELAY_HOURS with
  | error e => simp [indexStep, indexOutcome, hd]
  | ok d =>
    cases hcp : cP ix.symbol ix.collection (ix.delay_hours.getD d) with
    | ok b => simp [indexStep, indexOutcome, hd, hcp]
    | error e => simp [indexStep, indexOutcome, hd, hcp]

theorem foldl_newsQueryStep_spec (cfg : Config)
    (cN : String → String → Nat → Except Unit (List RawArticle))
    (l : List NewsQueryCfg) (r : ResultMaps)
    (hnd : (l.map NewsQueryCfg.name).Nodup) :
    (∀ nq ∈ l,
      dictLookup (l.foldl (newsQueryStep cfg cN) r).news_articles nq.name
        = some (newsQueryOutcome cfg cN nq)) ∧
    (∀ k, (∀ nq ∈ l, nq.name ≠ k) →
      dictLookup (l.foldl (newsQueryStep cfg cN) r).news_articles k
        = dictLookup r.news_articles k) ∧
    (l.foldl (newsQueryStep cfg cN) r).price_data = r.price_data := by
  induction l generalizing r with
  | nil => exact ⟨by simp, fun k _ => rfl, rfl⟩
  | cons nq l ih =>
    rw [List.map_cons, List.nodup_cons] at hnd
    obtain ⟨hnotin, hnd'⟩ := hnd
    have hne : ∀ x ∈ l, x.name ≠ nq.name := by
      intro x hx hcontra
      exact hnotin (hcontra ▸ List.mem_map_of_mem NewsQueryCfg.name hx)
    rw [List.foldl_cons, newsQueryStep_eq]
    obtain ⟨ihA, ihB, ihC⟩ := ih
      ⟨dictInsert r.news_articles nq.name (newsQueryOutcome cfg cN nq),
        r.price_data⟩ hnd'
    refine ⟨?_, ?_, ihC⟩
    · intro m hm
      rcases List.mem_cons.mp hm with hm' | hm'
      · rw [hm', ihB nq.name hne]
        exact dictLookup_insert_self r.news_articles nq.name
          (newsQueryOutcome cfg cN nq)
      · exact ihA m hm'
    · intro k hk
      rw [ihB k (fun x hx => hk x (List.mem_cons_of_mem nq hx))]
      exact dictLookup_insert_ne r.news_articles k nq.name
        (newsQueryOutcome cfg cN nq) (hk nq (List.mem_cons_self nq l))

theorem foldl_cryptoStep_spec (cfg : Config)
    (cN : String → String → Nat → Except Unit (List RawArticle))
    (cP : String → String → Nat → Except Unit Bool)
    (l : List CryptoCfg) (r : ResultMaps)
    (hnd : (l.map CryptoCfg.name).Nodup)
    (habs : ∀ c ∈ l, dictContains r.news_articles c.name = false) :
    (∀ c ∈ l,
      dictLookup (l.foldl (cryptoStep cfg cN cP) r).news_articles c.name
        = (cryptoEntries cfg cN cP c).1 ∧
      dictLookup (l.foldl (cryptoStep cfg cN cP) r).price_data c.name
        = some (cryptoEntries cfg cN cP c).2) ∧
    (∀ k, (∀ c ∈ l, c.name ≠ k) →
      dictLookup (l.foldl (cryptoStep cfg cN cP) r).news_articles k
        = dictLookup r.news_articles k ∧
      dictLookup (l.foldl (cryptoStep cfg cN cP) r).price_data k
        = dictLookup r.price_data k) := by
  induction l generalizing r with
  | nil => exact ⟨by simp, fun k _ => ⟨rfl, rfl⟩⟩
  | cons c l ih =>
    rw [List.map_cons, List.nodup_cons] at hnd
    obtain ⟨hnotin, hnd'⟩ := hnd
    have hne : ∀ x ∈ l, x.name ≠ c.name := by
      intro x hx hcontra
      exact hnotin (hcontra ▸ List.mem_map_of_mem CryptoCfg.name hx)
    have hc0 : dictContains r.news_articles c.name = false :=
      habs c (List.mem_cons_self c l)
    rw [List.foldl_cons, cryptoStep_eq cfg cN cP r c hc0]
    have habs' : ∀ c' ∈ l, dictContains
        (match (cryptoEntries cfg cN cP c).1 with
         | some n => dictInsert r.news_articles c.name n
         | none => r.news_articles) c'.name = false := by
      intro c' hc'
      cases he : (cryptoEntries cfg cN cP c).1 with
      | none =>
        simp only [he]
        exact habs c' (List.mem_cons_of_mem c hc')
      | some n =>
        simp only [he]
        rw [dictContains_insert_ne r.news_articles c'.name c.name n
          (Ne.symm (hne c' hc'))]
        exact habs c' (List.mem_cons_of_mem c hc')
    obtain ⟨ihA, ihB⟩ := ih
      (⟨(match (cryptoEntries cfg cN cP c).1 with
         | some n => dictInsert r.news_articles c.name n
         | none => r.news_articles),
        dictInsert r.price_data c.name (cryptoEntries cfg cN cP c).2⟩ :
        ResultMaps) hnd' habs'
    refine ⟨?_, ?_⟩
    · intro m hm
      rcases List.mem_cons.mp hm with hm' | hm'
      · obtain ⟨hB1, hB2⟩ := ihB c.name hne
        rw [hm']
        constructor
        · rw [hB1]
          cases he : (cryptoEntries cfg cN cP c).1 with
          | none =>
            simp only [he]
            exact dictLookup_eq_none_of_contains_false r.news_articles
              c.name hc0
          | some n =>
            simp only [he]
            exact dictLookup_insert_self r.news_articles c.name n
        · rw [hB2]
          exact dictLookup_insert_self r.price_data c.name
            (cryptoEntries cfg cN cP c).2
      · exact ihA m hm'
    · intro k hk
      obtain ⟨hB1, hB2⟩ := ihB k (fun x hx => hk x (List.mem_cons_of_mem c hx))
      have hck : c.name ≠ k := hk c (List.mem_cons_self c l)
      constructor
      · rw [hB1]
        cases he : (cryptoEntries cfg cN cP c).1 with
        | none => simp only [he]
        | some n =>
          simp only [he]
          exact dictLookup_insert_ne r.news_articles k c.name n hck
      · rw [hB2]
        exact dictLookup_insert_ne r.price_data k c.name
          (cryptoEntries cfg cN cP c).2 hck

theorem foldl_indexStep_spec (cfg : Config)
    (cP : String → String → Nat → Except Unit Bool)
    (l : List IndexCfg) (r : ResultMaps)
    (hnd : (l.map IndexCfg.name).Nodup) :
    (∀ ix ∈ l,
      dictLookup (l.foldl (indexStep cfg cP) r).price_data ix.name
        = some (indexOutcome cfg cP ix)) ∧
    (l.foldl (indexStep cfg cP) r).news_articles = r.news_articles ∧
    (∀ k, (∀ ix ∈ l, ix.name ≠ k) →
      dictLookup (l.foldl (indexStep cfg cP) r).price_data k
        = dictLookup r.price_data k) := by
  induction l generalizing r with
  | nil => exact ⟨by simp, rfl, fun k _ => rfl⟩
  | cons ix l ih =>
    rw [List.map_cons, List.nodup_cons] at hnd
    obtain ⟨hnotin, hnd'⟩ := hnd
    have hne : ∀ x ∈ l, x.name ≠ ix.name := by
      intro x hx hcontra
      exact hnotin (hcontra ▸ List.mem_map_of_mem IndexCfg.name hx)
    rw [List.foldl_cons, indexStep_eq]
    obtain ⟨ihA, ihB, ihC⟩ := ih
      ⟨r.news_articles,
        dictInsert r.price_data ix.name (indexOutcome cfg cP ix)⟩ hnd'
    refine ⟨?_, ihB, ?_⟩
    · intro m hm
      rcases List.mem_cons.mp hm with hm' | hm'
      · rw [hm', ihC ix.name hne]
        exact dictLookup_insert_self r.price_data ix.name
          (indexOutcome cfg cP ix)
      · exact ihA m hm'
    · intro k hk
      rw [ihC k (fun x hx => hk x (List.mem_cons_of_mem ix hx))]
      exact dictLookup_insert_ne r.price_data k ix.name
        (indexOutcome cfg cP ix) (hk ix (List.mem_cons_self ix l))

/-- C2: per-source failure isolation of `collect_and_store_all_data`.
Every configured source receives an entry in the returned result maps,
and that entry is a function of that source's own processing alone
(`newsQueryOutcome` / `cryptoEntries` / `indexOutcome`), so a failure
while processing one source never changes any other source's entry. The
last two conjuncts state the claim's failure case directly: a news
source whose fetch raises is recorded as 0, and a priced source whose
fetch raises is recorded as False — and nothing else. Hypothesis: the
configured source names are pairwise distinct (true of the committed
configuration). -/
theorem collect_and_store_all_data_isolated (cfg : Config)
    (cN : String → String → Nat → Except Unit (List RawArticle))
    (cP : String → String → Nat → Except Unit Bool)
    (hnd : (cfg.news_queries.map NewsQueryCfg.name ++
      (cfg.crypto.map CryptoCfg.name ++
        cfg.indices.map IndexCfg.name)).Nodup) :
    (∀ nq ∈ cfg.news_queries,
      dictLookup (collect_and_store_all_data cfg cN cP).news_articles nq.name
        = some (newsQueryOutcome cfg cN nq)) ∧
    (∀ c ∈ cfg.crypto,
      dictLookup (collect_and_store_all_data cfg cN cP).news_articles c.name
        = (cryptoEntries cfg cN cP c).1 ∧
      dictLookup (collect_and_store_all_data cfg cN cP).price_data c.name
        = some (cryptoEntries cfg cN cP c).2) ∧
    (∀ ix ∈ cfg.indices,
      dictLookup (collect_and_store_all_data cfg cN cP).price_data ix.name
        = some (indexOutcome cfg cP ix)) ∧
    (∀ nq ∈ cfg.news_queries, ∀ d,
      configAttr cfg.DEFAULT_DELAY_HOURS = Except.ok d →
      cN nq.query nq.collection (nq.delay_hours.getD d) = Except.error () →
      dictLookup (collect_and_store_all_data cfg cN cP).news_articles nq.name
        = some 0) ∧
    (∀ ix ∈ cfg.indices, ∀ d,
      configAttr cfg.DEFAULT_DELAY_HOURS = Except.ok d →
      cP ix.symbol ix.collection (ix.delay_hours.getD d) = Except.error () →
      dictLookup (collect_and_store_all_data cfg cN cP).price_data ix.name
        = some false) := by
  obtain ⟨hA, hBC, hdisjA⟩ := List.nodup_append.mp hnd
  obtain ⟨hB, hC, hdisjBC⟩ := List.nodup_append.mp hBC
  have loop1 := foldl_newsQueryStep_spec cfg cN cfg.news_queries ⟨[], []⟩ hA
  have habs2 : ∀ c ∈ cfg.crypto, dictContains
      (cfg.news_queries.foldl (newsQueryStep cfg cN)
        ⟨[], []⟩).news_articles c.name = false := by
    intro c hc
    have hne : ∀ nq ∈ cfg.news_queries, nq.name ≠ c.name := by
      intro nq hnq hcontra
      exact hdisjA (List.mem_map_of_mem NewsQueryCfg.name hnq)
        (hcontra ▸ List.mem_append_left _
          (List.mem_map_of_mem CryptoCfg.name hc))
    rw [dictContains_eq_isSome, loop1.2.1 c.name hne]
    rfl
  have loop2 := foldl_cryptoStep_spec cfg cN cP cfg.crypto
    (cfg.news_queries.foldl (newsQueryStep cfg cN) ⟨[], []⟩) hB habs2
  have loop3 := foldl_indexStep_spec cfg cP cfg.indices
    (cfg.crypto.foldl (cryptoStep cfg cN cP)
      (cfg.news_queries.foldl (newsQueryStep cfg cN) ⟨[], []⟩)) hC
  have hdef : collect_and_store_all_data cfg cN cP
      = cfg.indices.foldl (indexStep cfg cP)
          (cfg.crypto.foldl (cryptoStep cfg cN cP)
            (cfg.news_queries.foldl (newsQueryStep cfg cN) ⟨[], []⟩)) := rfl
  have main1 : ∀ nq ∈ cfg.news_queries,
      dictLookup (collect_and_store_all_data cfg cN cP).news_articles nq.name
        = some (newsQueryOutcome cfg cN nq) := by
    intro nq hnq
    rw [hdef, loop3.2.1]
    have hcs : ∀ c ∈ cfg.crypto, c.name ≠ nq.name := by
      intro c hc hcontra
      exact hdisjA (List.mem_map_of_mem NewsQueryCfg.name hnq)
        (hcontra ▸ List.mem_append_left _
          (List.mem_map_of_mem CryptoCfg.name hc))
    rw [(loop2.2 nq.name hcs).1]
    exact loop1.1 nq hnq
  have main3 : ∀ ix ∈ cfg.indices,
      dictLookup (collect_and_store_all_data cfg cN cP).price_data ix.name
        = some (indexOutcome cfg cP ix) := by
    intro ix hix
    rw [hdef]
    exact loop3.1 ix hix
  refine ⟨main1, ?_, main3, ?_, ?_⟩
  · intro c hc
    have hixs : ∀ ix ∈ cfg.indices, ix.name ≠ c.name := by
      intro ix hix hcontra
      exact hdisjBC (List.mem_map_of_mem CryptoCfg.name hc)
        (hcontra ▸ List.mem_map_of_mem IndexCfg.name hix)
    constructor
    · rw [hdef, loop3.2.1]
      exact (loop2.1 c hc).1
    · rw [hdef, loop3.2.2 c.name hixs]
      exact (loop2.1 c hc).2
  · intro nq hnq d hd hcn
    rw [main1 nq hnq]
    simp [newsQueryOutcome, hd, hcn]
  · intro ix hix d hd hcp
    rw [main3 ix hix]
    simp [indexOutcome, hd, hcp]

/-- Concrete news fetcher for the C2 witness: succeeds only for the
bitcoin query, raises for everything else. -/
def wcN : String → String → Nat → Except Unit (List RawArticle) :=
  fun q _ _ =>
    if q = "bitcoin OR btc"
    then Except.ok [⟨"A", some "S", some "2025-01-02T00:00:00Z", ""⟩]
    else Except.error ()

/-- Concrete price fetcher for the C2 witness: always succeeds. -/
def wcP : String → String → Nat → Except Unit Bool :=
  fun _ _ _ => Except.ok true

/-- Witness for C2: under the patched config, the Global Economy fetch
raises, its entry is recorded as 0, while Bitcoin (which succeeded with
one article) and the S&P 500 price keep their own outcomes. -/
theorem collect_and_store_all_data_isolated_witness :
    ((patchedConfig.news_queries.map NewsQueryCfg.name ++
      (patchedConfig.crypto.map CryptoCfg.name ++
        patchedConfig.indices.map IndexCfg.name)).Nodup) ∧
    (dictLookup (collect_and_store_all_data patchedConfig
        wcN wcP).news_articles "Global Economy" = some 0 ∧
      dictLookup (collect_and_store_all_data patchedConfig
        wcN wcP).price_data "S&P 500"
        = some (indexOutcome patchedConfig wcP
            ⟨"S&P 500", "^GSPC", "sp500", none⟩)) := by
  have hnd : ((patchedConfig.news_queries.map NewsQueryCfg.name ++
      (patchedConfig.crypto.map CryptoCfg.name ++
        patchedConfig.indices.map IndexCfg.name)).Nodup) := by
    decide
  refine ⟨hnd, ?_, ?_⟩
  · exact (collect_and_store_all_data_isolated patchedConfig wcN wcP
      hnd).2.2.2.1
      ⟨"Global Economy",
        "global economy OR economic outlook OR financial markets",
        "global_economy_articles", none⟩ (by decide) 3 rfl rfl
  · exact (collect_and_store_all_data_isolated patchedConfig wcN wcP
      hnd).2.2.1 ⟨"S&P 500", "^GSPC", "sp500", none⟩ (by decide)

end CryptoSentiment
